import Mathlib

/-!
Verification of the core of `jira-api-mcp-wrapper`: the ADF document
validator (`src/jira/adf.ts`) and the Jira HTTP client
(`src/jira/client.ts`): base-URL normalization, URL/query building,
error normalization of `getJson`/`putJson`/`postJson`, timeout
bookkeeping, and environment-based construction.

JavaScript runtime values are modelled by the JSON-like type `JSValue`
(the values that flow through this code are JSON-decodable: the tool
layer builds them from parsed JSON). Property access on a non-object
yields `none` (JavaScript `undefined`); an object field explicitly set
to `undefined` is indistinguishable from an absent field for every
check this code performs (`!== undefined`, `typeof`, `Array.isArray`),
so absence models it faithfully.
-/

inductive JSValue where
  | null
  | bool (b : Bool)
  | num (n : Int)
  | str (s : String)
  | arr (elems : List JSValue)
  | obj (fields : List (String × JSValue))
deriving Repr

/-- JavaScript `typeof` on the modelled values (`typeof null` is `"object"`). -/
def typeofJS : JSValue → String
  | .null => "object"
  | .bool _ => "boolean"
  | .num _ => "number"
  | .str _ => "string"
  | .arr _ => "object"
  | .obj _ => "object"

/-- JavaScript truthiness of the modelled values. -/
def truthy : JSValue → Bool
  | .null => false
  | .bool b => b
  | .num n => n != 0
  | .str s => s != ""
  | .arr _ => true
  | .obj _ => true

/-- JavaScript property access `v[k]`: `none` models `undefined`.
Arrays carry no named (non-index) properties, so named access on an
array yields `undefined`. -/
def getField : JSValue → String → Option JSValue
  | .obj fields, k => fields.lookup k
  | _, _ => none

/-- The check `v.type === 'doc'` (strict equality against the string literal). -/
def typeFieldIsDoc (v : JSValue) : Bool :=
  match getField v "type" with
  | some (.str s) => s == "doc"
  | _ => false

/-- The check `typeof v.version === 'number'`. -/
def versionFieldIsNumber (v : JSValue) : Bool :=
  match getField v "version" with
  | some (.num _) => true
  | _ => false

/-- The check `Array.isArray(v.content)`. -/
def contentFieldIsArray (v : JSValue) : Bool :=
  match getField v "content" with
  | some (.arr _) => true
  | _ => false

/-- The guard `!value || typeof value !== 'object'` (negated): a truthy
value of `typeof` `"object"`. -/
def isObjectLike (v : JSValue) : Bool :=
  truthy v && typeofJS v == "object"

/-- `looksLikeAdfDoc` from `src/jira/adf.ts`:
`if (!value || typeof value !== 'object') return false;`
then `v.type === 'doc' || v.version !== undefined || v.content !== undefined`. -/
def looksLikeAdfDoc (value : JSValue) : Bool :=
  if !truthy value || typeofJS value != "object" then false
  else
    typeFieldIsDoc value
      || (getField value "version").isSome
      || (getField value "content").isSome

/-- `assertValidAdfDoc` from `src/jira/adf.ts`; the thrown `Error`'s
message is modelled by `Except.error`. -/
def assertValidAdfDoc (value : JSValue) (fieldNameForError : String) : Except String Unit :=
  if !truthy value || typeofJS value != "object" then
    .error ("Field \"" ++ fieldNameForError ++ "\" was expected to be an ADF doc object, got "
      ++ typeofJS value)
  else if !typeFieldIsDoc value then
    .error ("Field \"" ++ fieldNameForError ++ "\" ADF doc is missing type=\"doc\"")
  else if !versionFieldIsNumber value then
    .error ("Field \"" ++ fieldNameForError ++ "\" ADF doc is missing numeric version")
  else if !contentFieldIsArray value then
    .error ("Field \"" ++ fieldNameForError ++ "\" ADF doc is missing array content")
  else .ok ()

/-- The spec's reading of `looksLikeDocument`: a non-null object/map (an
array is never a candidate document) whose `type` is the literal "doc",
or which has a `version` field, or which has a `content` field. -/
def isPlainObject : JSValue → Bool
  | .obj _ => true
  | _ => false

/-- Stated from the spec's words, for comparison with `looksLikeAdfDoc`. -/
def looksLikeDocumentSpec (v : JSValue) : Bool :=
  isPlainObject v
    && (typeFieldIsDoc v
        || (getField v "version").isSome
        || (getField v "content").isSome)

/-- C5: `looksLikeAdfDoc` returns true iff the value is a non-null
object/map and (`type` equals "doc", or a `version` field is present, or
a `content` field is present); it is false on every non-object and on
every array, including `[]`, `[{type:'doc'}]`, and the string "x", and
true on `{version:1, content:[]}`. -/
theorem looksLikeAdfDoc_eq_spec :
    (∀ v : JSValue, looksLikeAdfDoc v = looksLikeDocumentSpec v)
    ∧ looksLikeAdfDoc (.obj [("version", .num 1), ("content", .arr [])]) = true
    ∧ looksLikeAdfDoc (.arr []) = false
    ∧ looksLikeAdfDoc (.arr [.obj [("type", .str "doc")]]) = false
    ∧ looksLikeAdfDoc (.str "x") = false := by
  refine ⟨fun v => ?_, rfl, rfl, rfl, rfl⟩
  cases v <;>
    simp [looksLikeAdfDoc, looksLikeDocumentSpec, isPlainObject, truthy, typeofJS,
      typeFieldIsDoc, getField]

/-- C4: `assertValidAdfDoc` performs its four checks in order, short-
circuiting at the first failure: non-object values fail with the
"expected to be an ADF doc object" message, then a `type` field other
than the literal "doc" fails with the missing-type message, then a
non-numeric `version` fails with the missing-numeric-version message,
then a non-array `content` fails with the missing-array-content
message; when all four pass it returns unit. Every message embeds the
given field label, and the function is a total Lean function whose only
failure mode is the returned error. -/
theorem assertValidAdfDoc_spec (v : JSValue) (label : String) :
    (isObjectLike v = false →
      assertValidAdfDoc v label =
        .error ("Field \"" ++ label ++ "\" was expected to be an ADF doc object, got "
          ++ typeofJS v))
    ∧ (isObjectLike v = true → typeFieldIsDoc v = false →
      assertValidAdfDoc v label =
        .error ("Field \"" ++ label ++ "\" ADF doc is missing type=\"doc\""))
    ∧ (isObjectLike v = true → typeFieldIsDoc v = true → versionFieldIsNumber v = false →
      assertValidAdfDoc v label =
        .error ("Field \"" ++ label ++ "\" ADF doc is missing numeric version"))
    ∧ (isObjectLike v = true → typeFieldIsDoc v = true → versionFieldIsNumber v = true →
      contentFieldIsArray v = false →
      assertValidAdfDoc v label =
        .error ("Field \"" ++ label ++ "\" ADF doc is missing array content"))
    ∧ (isObjectLike v = true → typeFieldIsDoc v = true → versionFieldIsNumber v = true →
      contentFieldIsArray v = true →
      assertValidAdfDoc v label = .ok ()) := by
  unfold assertValidAdfDoc isObjectLike
  refine ⟨?_, ?_, ?_, ?_, ?_⟩ <;> intros <;> simp_all

/-- C4 witness: the four spec examples at the concrete label "desc". -/
theorem assertValidAdfDoc_spec_witness :
    assertValidAdfDoc (.obj [("type", .str "doc"), ("version", .num 1)]) "desc"
      = .error "Field \"desc\" ADF doc is missing array content"
    ∧ assertValidAdfDoc (.obj [("type", .str "doc"), ("content", .arr [])]) "desc"
      = .error "Field \"desc\" ADF doc is missing numeric version"
    ∧ assertValidAdfDoc (.obj [("version", .num 1), ("content", .arr [])]) "desc"
      = .error "Field \"desc\" ADF doc is missing type=\"doc\""
    ∧ assertValidAdfDoc (.obj [("type", .str "doc"), ("version", .num 1), ("content", .arr [])])
        "desc" = .ok ()
    ∧ assertValidAdfDoc (.str "x") "desc"
      = .error "Field \"desc\" was expected to be an ADF doc object, got string" := by
  refine ⟨?_, ?_, ?_, ?_, ?_⟩
  · exact (assertValidAdfDoc_spec _ "desc").2.2.2.1 rfl rfl rfl rfl
  · exact (assertValidAdfDoc_spec _ "desc").2.2.1 rfl rfl rfl
  · exact (assertValidAdfDoc_spec _ "desc").2.1 rfl rfl
  · exact (assertValidAdfDoc_spec _ "desc").2.2.2.2 rfl rfl rfl rfl
  · exact (assertValidAdfDoc_spec _ "desc").1 rfl

/-! ## Jira client: construction (`src/jira/client.ts`) -/

/-- Models `.replace(/\/+$/, '')`: remove every trailing `/`. -/
def stripTrailingSlashes (s : String) : String :=
  String.mk (s.toList.rdropWhile (fun c => c == '/'))

/-- Models JavaScript `s.startsWith(pre)` as a character-sequence prefix
test. -/
def strStartsWith (s pre : String) : Bool :=
  pre.toList.isPrefixOf s.toList

/-- Models JavaScript `s.trim()`: remove leading and trailing
whitespace (for the ASCII whitespace characters both runtimes agree
on). -/
def jsTrim (s : String) : String :=
  String.mk ((s.toList.dropWhile Char.isWhitespace).rdropWhile Char.isWhitespace)

/-- `normalizeBaseUrl` from `src/jira/client.ts`: trim surrounding
whitespace, then strip trailing slashes, then require an `http://` or
`https://` prefix. The thrown `Error` is modelled by `Except.error`.
(`jsTrim` models JavaScript `trim`.) -/
def normalizeBaseUrl (raw : String) : Except String String :=
  let trimmed := stripTrailingSlashes (jsTrim raw)
  if !strStartsWith trimmed "http://" && !strStartsWith trimmed "https://" then
    .error
      "JIRA_BASE_URL must start with http:// or https:// (e.g. https://your-domain.atlassian.net)"
  else .ok trimmed

inductive JiraAuthConfig where
  | basic (email apiToken : String)
  | bearer (token : String)
deriving Repr, DecidableEq

/-- The configuration a successfully constructed `JiraClient` stores:
`{ ...config, baseUrl: normalizeBaseUrl(config.baseUrl), timeoutMs: config.timeoutMs ?? 30_000 }`. -/
structure JiraClientConfig where
  baseUrl : String
  auth : JiraAuthConfig
  timeoutMs : Nat
deriving Repr, DecidableEq

/-- The `JiraClient` constructor: normalization may throw synchronously
(modelled by `Except.error`); the default timeout is 30000 ms. -/
def mkJiraClient (baseUrl : String) (auth : JiraAuthConfig) (timeoutMs : Option Nat) :
    Except String JiraClientConfig :=
  match normalizeBaseUrl baseUrl with
  | .error e => .error e
  | .ok b => .ok ⟨b, auth, timeoutMs.getD 30000⟩

/-- Does the string end in `'/'`? -/
def endsWithSlash (s : String) : Bool :=
  s.toList.getLast? == some '/'

theorem stripTrailingSlashes_not_endsWithSlash (s : String) :
    endsWithSlash (stripTrailingSlashes s) = false := by
  unfold endsWithSlash stripTrailingSlashes
  show ((s.toList.rdropWhile (fun c => c == '/')).getLast? == some '/') = false
  simp only [beq_eq_false_iff_ne, ne_eq]
  intro hcontra
  have hmem : '/' ∈ (s.toList.rdropWhile (fun c => c == '/')).getLast? :=
    Option.mem_def.mpr hcontra
  obtain ⟨h, hlast⟩ := List.mem_getLast?_eq_getLast hmem
  have hnot := List.rdropWhile_last_not (fun c => c == '/') s.toList h
  exact hnot (by rw [← hlast]; rfl)

theorem normalizeBaseUrl_ok (raw b : String) (h : normalizeBaseUrl raw = .ok b) :
    b = stripTrailingSlashes (jsTrim raw)
    ∧ (strStartsWith b "http://" || strStartsWith b "https://") = true
    ∧ endsWithSlash b = false := by
  unfold normalizeBaseUrl at h
  by_cases hc : (!strStartsWith (stripTrailingSlashes (jsTrim raw)) "http://"
      && !strStartsWith (stripTrailingSlashes (jsTrim raw)) "https://") = true
  · rw [if_pos hc] at h; exact absurd h (by simp)
  · rw [if_neg hc] at h
    have hb : b = stripTrailingSlashes (jsTrim raw) := by
      cases h; rfl
    subst hb
    refine ⟨rfl, ?_, stripTrailingSlashes_not_endsWithSlash _⟩
    by_contra hor
    apply hc
    simp only [Bool.or_eq_true, not_or, Bool.not_eq_true] at hor
    simp [hor.1, hor.2]

/-- Stripping trailing slashes cannot create an `http://`/`https://`
prefix that the original string lacked. -/
theorem strStartsWith_stripTrailingSlashes (s pre : String)
    (h : strStartsWith (stripTrailingSlashes s) pre = true) :
    strStartsWith s pre = true := by
  unfold strStartsWith at h ⊢
  rw [List.isPrefixOf_iff_prefix] at h ⊢
  have hdrop : (stripTrailingSlashes s).toList <+: s.toList := by
    show (s.toList.rdropWhile (fun c => c == '/')) <+: s.toList
    exact List.rdropWhile_prefix _ _
  exact h.trans hdrop

/-- `JiraClient` construction invariant and failure behaviour.
Construction stores `stripTrailingSlashes (jsTrim raw)` as base URL; a
stored base URL always starts with `http://` or `https://` and never
ends with a slash; a trimmed raw address lacking both prefixes is
rejected with the configuration error. -/
theorem mkJiraClient_base_invariant (raw : String) (auth : JiraAuthConfig) (t : Option Nat) :
    (∀ cfg : JiraClientConfig, mkJiraClient raw auth t = .ok cfg →
      cfg.baseUrl = stripTrailingSlashes (jsTrim raw)
      ∧ (strStartsWith cfg.baseUrl "http://" || strStartsWith cfg.baseUrl "https://") = true
      ∧ endsWithSlash cfg.baseUrl = false)
    ∧ (strStartsWith (jsTrim raw) "http://" = false → strStartsWith (jsTrim raw) "https://" = false →
      mkJiraClient raw auth t = .error
        "JIRA_BASE_URL must start with http:// or https:// (e.g. https://your-domain.atlassian.net)") := by
  constructor
  · intro cfg hok
    unfold mkJiraClient at hok
    rcases hn : normalizeBaseUrl raw with e | b
    · rw [hn] at hok; exact absurd hok (by simp)
    · rw [hn] at hok
      have hcfg : cfg.baseUrl = b := by cases hok; rfl
      rw [hcfg]
      obtain ⟨h1, h2, h3⟩ := normalizeBaseUrl_ok raw b hn
      exact ⟨h1, h2, h3⟩
  · intro h1 h2
    have hs1 : strStartsWith (stripTrailingSlashes (jsTrim raw)) "http://" = false := by
      by_contra hcon
      rw [Bool.not_eq_false] at hcon
      rw [strStartsWith_stripTrailingSlashes _ _ hcon] at h1
      exact absurd h1 (by simp)
    have hs2 : strStartsWith (stripTrailingSlashes (jsTrim raw)) "https://" = false := by
      by_contra hcon
      rw [Bool.not_eq_false] at hcon
      rw [strStartsWith_stripTrailingSlashes _ _ hcon] at h2
      exact absurd h2 (by simp)
    unfold mkJiraClient normalizeBaseUrl
    rw [if_pos (by simp [hs1, hs2])]

/-- C6 counterexample: the code trims before stripping trailing
slashes, so on the raw base address `"https://x.com /"` construction
succeeds and stores `"https://x.com "`, which ends with a space — the
stored base address is not free of surrounding whitespace. -/
theorem normalizeBaseUrl_trailing_whitespace_cex :
    mkJiraClient "https://x.com /" (.bearer "tok") none
      = .ok ⟨"https://x.com ", .bearer "tok", 30000⟩
    ∧ ("https://x.com ").toList.getLast? = some ' ' := by
  constructor
  · rfl
  · decide

/-- C6 witness: a concrete base address with surrounding whitespace and
trailing slashes normalizes to the expected scheme-checked, slash-free
form, and a schemeless address is rejected. -/
theorem mkJiraClient_base_invariant_witness :
    ((strStartsWith "https://test.atlassian.net" "http://"
        || strStartsWith "https://test.atlassian.net" "https://") = true
      ∧ endsWithSlash "https://test.atlassian.net" = false)
    ∧ mkJiraClient "example.atlassian.net" (.bearer "tok") none
      = .error
        "JIRA_BASE_URL must start with http:// or https:// (e.g. https://your-domain.atlassian.net)" := by
  constructor
  · have h := (mkJiraClient_base_invariant "  https://test.atlassian.net///  "
      (.bearer "tok") none).1 ⟨"https://test.atlassian.net", .bearer "tok", 30000⟩ (by rfl)
    exact ⟨h.2.1, h.2.2⟩
  · exact (mkJiraClient_base_invariant "example.atlassian.net" (.bearer "tok") none).2
      (by rfl) (by rfl)

/-! ## Environment-based construction -/

/-- The four environment variables `jiraClientFromEnv` reads; `none`
models an unset variable. -/
structure JiraEnv where
  baseUrlVar : Option String
  bearerTokenVar : Option String
  emailVar : Option String
  apiTokenVar : Option String

/-- JavaScript truthiness of `process.env.X`: unset (`undefined`) and
the empty string are both falsy. -/
def envPresent : Option String → Bool
  | some s => s != ""
  | none => false

/-- `jiraClientFromEnv` from `src/jira/client.ts`. -/
def jiraClientFromEnv (env : JiraEnv) : Except String JiraClientConfig :=
  if !envPresent env.baseUrlVar then .error "Missing required env var: JIRA_BASE_URL"
  else
    let baseUrl := env.baseUrlVar.getD ""
    if envPresent env.bearerTokenVar then
      mkJiraClient baseUrl (.bearer (env.bearerTokenVar.getD "")) none
    else if !envPresent env.emailVar || !envPresent env.apiTokenVar then
      .error "Missing auth env vars: set either JIRA_BEARER_TOKEN or (JIRA_EMAIL + JIRA_API_TOKEN)"
    else
      mkJiraClient baseUrl (.basic (env.emailVar.getD "") (env.apiTokenVar.getD "")) none

/-- C9: environment-based construction fails with the exact message
`Missing required env var: JIRA_BASE_URL` when the base-address variable
is absent (or empty); when the bearer-token variable is set, any
successfully built configuration uses bearer authentication — even if
the basic-auth identity and secret variables are also set; and when the
bearer token is unset and the identity+secret pair is incomplete it
fails with the distinct message naming both auth options. -/
theorem jiraClientFromEnv_spec (env : JiraEnv) :
    (envPresent env.baseUrlVar = false →
      jiraClientFromEnv env = .error "Missing required env var: JIRA_BASE_URL")
    ∧ (envPresent env.baseUrlVar = true → envPresent env.bearerTokenVar = true →
      ∀ cfg : JiraClientConfig, jiraClientFromEnv env = .ok cfg →
        cfg.auth = .bearer (env.bearerTokenVar.getD ""))
    ∧ (envPresent env.baseUrlVar = true → envPresent env.bearerTokenVar = false →
      (envPresent env.emailVar = false ∨ envPresent env.apiTokenVar = false) →
      jiraClientFromEnv env =
        .error "Missing auth env vars: set either JIRA_BEARER_TOKEN or (JIRA_EMAIL + JIRA_API_TOKEN)") := by
  refine ⟨?_, ?_, ?_⟩
  · intro h
    unfold jiraClientFromEnv
    rw [if_pos (by simp [h])]
  · intro hb hbear cfg hok
    unfold jiraClientFromEnv at hok
    rw [if_neg (by simp [hb]), if_pos hbear] at hok
    unfold mkJiraClient at hok
    rcases hn : normalizeBaseUrl (env.baseUrlVar.getD "") with e | b
    · rw [hn] at hok; exact absurd hok (by simp)
    · rw [hn] at hok; cases hok; rfl
  · intro hb hbear hmiss
    unfold jiraClientFromEnv
    rw [if_neg (by simp [hb]), if_neg (by simp [hbear])]
    rcases hmiss with h | h <;> rw [if_pos (by simp [h])]

/-- C9 witness: concrete environments — all variables set selects
bearer auth; missing base address and missing auth pair produce the two
literal messages. -/
theorem jiraClientFromEnv_spec_witness :
    jiraClientFromEnv ⟨some "https://x.com", some "B", some "e@x.com", some "T"⟩
      = .ok ⟨"https://x.com", .bearer "B", 30000⟩
    ∧ (JiraClientConfig.mk "https://x.com" (.bearer "B") 30000).auth = .bearer "B"
    ∧ jiraClientFromEnv ⟨none, some "B", some "e@x.com", some "T"⟩
      = .error "Missing required env var: JIRA_BASE_URL"
    ∧ jiraClientFromEnv ⟨some "https://x.com", none, some "e@x.com", none⟩
      = .error "Missing auth env vars: set either JIRA_BEARER_TOKEN or (JIRA_EMAIL + JIRA_API_TOKEN)" := by
  refine ⟨by rfl, ?_, ?_, ?_⟩
  · exact (jiraClientFromEnv_spec ⟨some "https://x.com", some "B", some "e@x.com", some "T"⟩).2.1
      (by rfl) (by rfl) _ (by rfl)
  · exact (jiraClientFromEnv_spec ⟨none, some "B", some "e@x.com", some "T"⟩).1 (by rfl)
  · exact (jiraClientFromEnv_spec ⟨some "https://x.com", none, some "e@x.com", none⟩).2.2
      (by rfl) (by rfl) (Or.inr (by rfl))

/-- C10: an array passes the first check of `assertValidAdfDoc` (in the
runtime an array is a truthy value of `typeof` `"object"`), so the
"expected to be an ADF doc object" message is never produced for an
array; instead every array fails the second check with the
missing-`type="doc"` message — even though `looksLikeAdfDoc` never
treats an array as document-like. -/
theorem assertValidAdfDoc_array (xs : List JSValue) (label : String) :
    assertValidAdfDoc (.arr xs) label
      = .error ("Field \"" ++ label ++ "\" ADF doc is missing type=\"doc\"")
    ∧ looksLikeAdfDoc (.arr xs) = false := by
  constructor
  · simp [assertValidAdfDoc, truthy, typeofJS, typeFieldIsDoc, getField]
  · simp [looksLikeAdfDoc, typeFieldIsDoc, getField]

/-! ## HTTP calls: `getJson` / `putJson` / `postJson`

Each call races one `fetch` against a `setTimeout`-armed
`AbortController`. A `FetchOutcome` is the first event that settles the
`fetch` promise: a response, the timer-driven abort, or a transport
failure. The `try/finally` block of each method runs `clearTimeout` on
every completion path; a `CallResult` records the settled value together
with whether `clearTimeout` was invoked. -/

structure HttpResponse where
  status : Nat
  statusText : String
  /-- `res.headers.get('content-type')`: `none` models an absent header. -/
  contentType : Option String
  /-- What `res.text()` would yield; `none` models a body-read failure. -/
  bodyText : Option String
  /-- What `res.json()` would yield; `none` models a JSON parse failure. -/
  jsonBody : Option JSValue
deriving Repr

inductive FetchOutcome where
  /-- A response arrived before the timer fired. -/
  | response (res : HttpResponse)
  /-- The timer fired first: `controller.abort()` rejects the fetch with
  an abort-kind error. -/
  | timeoutAbort
  /-- Any other transport-level rejection (DNS, connection refused, …). -/
  | transportFailure (msg : String)
deriving Repr

/-- The errors a call can settle with. `http` models `JiraHttpError`
with its `status`, `url` and optional `bodyText` attributes. -/
inductive JiraCallError where
  | http (message : String) (status : Nat) (url : String) (bodyText : Option String)
  | abort
  | transport (msg : String)
  | jsonDecode
deriving Repr

/-- Is the error a `JiraHttpError`? -/
def JiraCallError.isHttp : JiraCallError → Bool
  | .http _ _ _ _ => true
  | _ => false

/-- The HTTP status an error carries, if any: only `JiraHttpError` has one. -/
def JiraCallError.statusOf : JiraCallError → Option Nat
  | .http _ s _ _ => some s
  | _ => none

structure CallResult where
  result : Except JiraCallError JSValue
  /-- Whether `clearTimeout` ran (the `finally` block). -/
  clearTimeoutCalled : Bool
deriving Repr

/-- `res.ok`: status in the 2xx range. -/
def resOk (res : HttpResponse) : Bool :=
  200 ≤ res.status && res.status ≤ 299

/-- `readBodyTextSafely` from `src/jira/client.ts`: read the body text;
bodies longer than 20000 characters are cut to their first 20000
characters plus the marker `…(truncated)`; a read failure yields
`undefined` instead of failing. -/
def readBodyTextSafely : Option String → Option String
  | none => none
  | some text =>
    some (if text.length > 20000
      then String.mk (text.toList.take 20000) ++ "…(truncated)"
      else text)

/-- Models JavaScript `s.includes(pat)`: substring containment. -/
def strIncludes (s pat : String) : Bool :=
  s.toList.tails.any (fun t => pat.toList.isPrefixOf t)

/-- `JiraClient.getJson`, as a function of the first event settling its
`fetch`. Every branch passes through the `finally` block, recorded by
`clearTimeoutCalled`. -/
def getJsonCall (url : String) (outcome : FetchOutcome) : CallResult :=
  match outcome with
  | .timeoutAbort => ⟨.error .abort, true⟩
  | .transportFailure m => ⟨.error (.transport m), true⟩
  | .response res =>
    if !resOk res then
      ⟨.error (.http ("Jira GET failed: " ++ toString res.status ++ " " ++ res.statusText)
        res.status url (readBodyTextSafely res.bodyText)), true⟩
    else
      match res.jsonBody with
      | some v => ⟨.ok v, true⟩
      | none => ⟨.error .jsonDecode, true⟩

/-- `JiraClient.putJson`: the 204 short-circuit precedes the `ok` check;
a 2xx body is decoded only under a JSON content type. -/
def putJsonCall (url : String) (outcome : FetchOutcome) : CallResult :=
  match outcome with
  | .timeoutAbort => ⟨.error .abort, true⟩
  | .transportFailure m => ⟨.error (.transport m), true⟩
  | .response res =>
    if res.status == 204 then ⟨.ok (.obj []), true⟩
    else if !resOk res then
      ⟨.error (.http ("Jira PUT failed: " ++ toString res.status ++ " " ++ res.statusText)
        res.status url (readBodyTextSafely res.bodyText)), true⟩
    else if strIncludes (res.contentType.getD "") "application/json" then
      match res.jsonBody with
      | some v => ⟨.ok v, true⟩
      | none => ⟨.error .jsonDecode, true⟩
    else ⟨.ok (.obj []), true⟩

/-- `JiraClient.postJson`: same structure as `putJson` with the POST
message. -/
def postJsonCall (url : String) (outcome : FetchOutcome) : CallResult :=
  match outcome with
  | .timeoutAbort => ⟨.error .abort, true⟩
  | .transportFailure m => ⟨.error (.transport m), true⟩
  | .response res =>
    if res.status == 204 then ⟨.ok (.obj []), true⟩
    else if !resOk res then
      ⟨.error (.http ("Jira POST failed: " ++ toString res.status ++ " " ++ res.statusText)
        res.status url (readBodyTextSafely res.bodyText)), true⟩
    else if strIncludes (res.contentType.getD "") "application/json" then
      match res.jsonBody with
      | some v => ⟨.ok v, true⟩
      | none => ⟨.error .jsonDecode, true⟩
    else ⟨.ok (.obj []), true⟩

/-- A non-2xx status is never 204. -/
theorem resOk_false_ne_204 (res : HttpResponse) (h : resOk res = false) : res.status ≠ 204 := by
  unfold resOk at h
  simp only [Bool.and_eq_false_iff, decide_eq_false_iff_not, not_le] at h
  omega

/-- C1: every `getJson`/`putJson`/`postJson` call whose response has a
non-2xx status (204 is 2xx, so the 204 short-circuit never applies)
settles with a `JiraHttpError` whose `status` is the response status,
whose `url` is the resolved request address, whose message embeds the
method, the numeric status and the status text, and whose `bodyText` is
the safely read body: the body itself when readable and at most 20000
characters, its first 20000 characters plus the `…(truncated)` marker
when longer, and omitted when the body cannot be read — the error still
carrying the original status and url. -/
theorem non2xx_yields_http_error (url : String) (res : HttpResponse)
    (hok : resOk res = false) :
    (getJsonCall url (.response res)).result
      = .error (.http ("Jira GET failed: " ++ toString res.status ++ " " ++ res.statusText)
          res.status url (readBodyTextSafely res.bodyText))
    ∧ (putJsonCall url (.response res)).result
      = .error (.http ("Jira PUT failed: " ++ toString res.status ++ " " ++ res.statusText)
          res.status url (readBodyTextSafely res.bodyText))
    ∧ (postJsonCall url (.response res)).result
      = .error (.http ("Jira POST failed: " ++ toString res.status ++ " " ++ res.statusText)
          res.status url (readBodyTextSafely res.bodyText))
    ∧ (∀ t : String, res.bodyText = some t → t.length > 20000 →
        readBodyTextSafely res.bodyText = some (String.mk (t.toList.take 20000) ++ "…(truncated)"))
    ∧ (∀ t : String, res.bodyText = some t → ¬t.length > 20000 →
        readBodyTextSafely res.bodyText = some t)
    ∧ (res.bodyText = none → readBodyTextSafely res.bodyText = none) := by
  have h204 : (res.status == 204) = false := by
    simp only [beq_eq_false_iff_ne, ne_eq]
    exact resOk_false_ne_204 res hok
  refine ⟨?_, ?_, ?_, ?_, ?_, ?_⟩
  · simp only [getJsonCall]; rw [hok]; rfl
  · simp only [putJsonCall]; rw [h204, hok]; rfl
  · simp only [postJsonCall]; rw [h204, hok]; rfl
  · intro t ht hlen
    rw [ht]; simp only [readBodyTextSafely]
    rw [if_pos hlen]
  · intro t ht hlen
    rw [ht]; simp only [readBodyTextSafely]
    rw [if_neg hlen]
  · intro h; rw [h]; rfl

/-- C1 witness: a concrete 404 with a short readable body, a concrete
500 whose body read fails, and the truncation case on a 20001-character
body. -/
theorem non2xx_yields_http_error_witness :
    (getJsonCall "https://x.com/a" (.response ⟨404, "Not Found", none, some "nope", none⟩)).result
      = .error (.http "Jira GET failed: 404 Not Found" 404 "https://x.com/a" (some "nope"))
    ∧ (putJsonCall "https://x.com/a" (.response ⟨500, "Internal Server Error", none, none, none⟩)).result
      = .error (.http "Jira PUT failed: 500 Internal Server Error" 500 "https://x.com/a" none)
    ∧ readBodyTextSafely (some (String.mk (List.replicate 20001 'a')))
      = some (String.mk (List.replicate 20000 'a') ++ "…(truncated)") := by
  refine ⟨?_, ?_, ?_⟩
  · exact (non2xx_yields_http_error "https://x.com/a"
      ⟨404, "Not Found", none, some "nope", none⟩ rfl).1
  · exact (non2xx_yields_http_error "https://x.com/a"
      ⟨500, "Internal Server Error", none, none, none⟩ rfl).2.1
  · have hlen : (String.mk (List.replicate 20001 'a')).length > 20000 := by
      show (List.replicate 20001 'a').length > 20000
      rw [List.length_replicate]
      omega
    have h := (non2xx_yields_http_error "https://x.com/a"
      ⟨404, "Not Found", none, some (String.mk (List.replicate 20001 'a')), none⟩ rfl).2.2.2.1
      (String.mk (List.replicate 20001 'a')) rfl hlen
    rw [h]
    have htake : (String.mk (List.replicate 20001 'a')).toList.take 20000
        = List.replicate 20000 'a' := by
      show (List.replicate 20001 'a').take 20000 = List.replicate 20000 'a'
      rw [List.take_replicate]
      congr 1
    rw [htake]

/-- C2: when the timer fires first the call settles with the abort-kind
error, which is not a `JiraHttpError` and carries no HTTP status; and on
every completion path — success, non-2xx error, abort, or transport
failure — `clearTimeout` is invoked. -/
theorem timeout_aborts_and_timer_disarmed (url : String) :
    (getJsonCall url .timeoutAbort).result = .error .abort
    ∧ (putJsonCall url .timeoutAbort).result = .error .abort
    ∧ (postJsonCall url .timeoutAbort).result = .error .abort
    ∧ JiraCallError.isHttp .abort = false
    ∧ JiraCallError.statusOf .abort = none
    ∧ (∀ o : FetchOutcome,
        (getJsonCall url o).clearTimeoutCalled = true
        ∧ (putJsonCall url o).clearTimeoutCalled = true
        ∧ (postJsonCall url o).clearTimeoutCalled = true) := by
  refine ⟨rfl, rfl, rfl, rfl, rfl, ?_⟩
  intro o
  rcases o with res | _ | m
  · refine ⟨?_, ?_, ?_⟩ <;>
      simp only [getJsonCall, putJsonCall, postJsonCall] <;>
      split <;> (try split) <;> (try split) <;> (try rfl) <;> (try split) <;> rfl
  · exact ⟨rfl, rfl, rfl⟩
  · exact ⟨rfl, rfl, rfl⟩

/-- C3: `putJson` and `postJson` yield an empty object on a 204
response without any attempt to decode the body (even when decoding
would fail); on any other 2xx response they yield an empty object when
the content type does not declare JSON, and the JSON-decoded body when
it does. -/
theorem put_post_success_decoding (url : String) (res : HttpResponse) :
    (res.status = 204 →
      (putJsonCall url (.response res)).result = .ok (.obj [])
      ∧ (postJsonCall url (.response res)).result = .ok (.obj []))
    ∧ (res.status ≠ 204 → resOk res = true →
        strIncludes (res.contentType.getD "") "application/json" = false →
      (putJsonCall url (.response res)).result = .ok (.obj [])
      ∧ (postJsonCall url (.response res)).result = .ok (.obj []))
    ∧ (res.status ≠ 204 → resOk res = true →
        strIncludes (res.contentType.getD "") "application/json" = true →
      ∀ v : JSValue, res.jsonBody = some v →
      (putJsonCall url (.response res)).result = .ok v
      ∧ (postJsonCall url (.response res)).result = .ok v) := by
  refine ⟨?_, ?_, ?_⟩
  · intro h204
    have hb : (res.status == 204) = true := by simp [h204]
    constructor <;> (simp only [putJsonCall, postJsonCall]; rw [hb]; rfl)
  · intro h204 hok hct
    have hb : (res.status == 204) = false := by simp [h204]
    constructor <;>
      (simp only [putJsonCall, postJsonCall]; rw [hb, hok, hct]; rfl)
  · intro h204 hok hct v hv
    have hb : (res.status == 204) = false := by simp [h204]
    constructor <;>
      (simp only [putJsonCall, postJsonCall]; rw [hb, hok, hct, hv]; rfl)

/-- C3 witness: concrete responses — a 204 whose body would not decode,
a 200 with a text/html content type, and a 200 with
`application/json; charset=utf-8` carrying a decodable body. -/
theorem put_post_success_decoding_witness :
    (putJsonCall "u" (.response ⟨204, "No Content", none, some "x", none⟩)).result = .ok (.obj [])
    ∧ (postJsonCall "u" (.response ⟨200, "OK", some "text/html", some "x", none⟩)).result
      = .ok (.obj [])
    ∧ (putJsonCall "u"
        (.response ⟨200, "OK", some "application/json; charset=utf-8", some "{}",
          some (.obj [("k", .num 1)])⟩)).result
      = .ok (.obj [("k", .num 1)]) := by
  refine ⟨?_, ?_, ?_⟩
  · exact ((put_post_success_decoding "u" ⟨204, "No Content", none, some "x", none⟩).1 rfl).1
  · exact ((put_post_success_decoding "u" ⟨200, "OK", some "text/html", some "x", none⟩).2.1
      (by decide) rfl (by decide)).2
  · exact ((put_post_success_decoding "u"
      ⟨200, "OK", some "application/json; charset=utf-8", some "{}",
        some (.obj [("k", .num 1)])⟩).2.2
      (by decide) rfl (by decide) _ rfl).1

/-! ## URL and query-string construction (`JiraClient.url`)

`JiraClient.url` runs `new URL(baseUrl + path)`, sets the defined query
entries on `searchParams`, and serializes with `toString()`. The WHATWG
URL machinery is a platform facility; it is modelled here on the
fragment the client exercises: an `http`/`https` scheme, a non-empty
lower-case host without userinfo or port, and a path without query or
fragment markers, dot segments, or characters the serializer would
re-encode (the parser answers `none` outside this fragment). Query
values are serialized with `application/x-www-form-urlencoded` rules:
UTF-8 bytes, space as `+`, unsafe bytes percent-encoded. -/

/-- `String(v)` for a query value; `none` for `undefined` (the entry is
skipped by the loop). -/
inductive QueryVal where
  | str (s : String)
  | num (n : Int)
  | bool (b : Bool)
  | undef
deriving Repr

def stringOfQueryVal : QueryVal → Option String
  | .undef => none
  | .str s => some s
  | .num n => some (toString n)
  | .bool b => some (if b then "true" else "false")

/-- The UTF-8 bytes of one character (arithmetic form of the standard
encoding). -/
def utf8Bytes (c : Char) : List Nat :=
  if c.toNat < 0x80 then [c.toNat]
  else if c.toNat < 0x800 then [0xC0 + c.toNat / 64, 0x80 + c.toNat % 64]
  else if c.toNat < 0x10000 then
    [0xE0 + c.toNat / 4096, 0x80 + c.toNat / 64 % 64, 0x80 + c.toNat % 64]
  else [0xF0 + c.toNat / 262144, 0x80 + c.toNat / 4096 % 64, 0x80 + c.toNat / 64 % 64,
    0x80 + c.toNat % 64]

def isUrlencodedSafe (b : Nat) : Bool :=
  (0x30 ≤ b && b ≤ 0x39) || (0x41 ≤ b && b ≤ 0x5A) || (0x61 ≤ b && b ≤ 0x7A)
    || b == 0x2A || b == 0x2D || b == 0x2E || b == 0x5F

def hexDigit (x : Nat) : Char :=
  if x < 10 then Char.ofNat (0x30 + x) else Char.ofNat (0x41 + x - 10)

def encodeByte (b : Nat) : List Char :=
  if isUrlencodedSafe b then [Char.ofNat b]
  else if b == 0x20 then ['+']
  else ['%', hexDigit (b / 16), hexDigit (b % 16)]

def hexVal (c : Char) : Nat :=
  if '0' ≤ c ∧ c ≤ '9' then c.toNat - 48
  else if 'A' ≤ c ∧ c ≤ 'F' then c.toNat - 55
  else if 'a' ≤ c ∧ c ≤ 'f' then c.toNat - 87
  else 0

def percentDecodeBytes : List Char → List Nat
  | [] => []
  | c :: rest =>
    if c = '%' then
      match rest with
      | h :: l :: rest2 => (hexVal h * 16 + hexVal l) :: percentDecodeBytes rest2
      | _ => []
    else if c = '+' then 0x20 :: percentDecodeBytes rest
    else c.toNat :: percentDecodeBytes rest

def utf8Len (b0 : Nat) : Nat :=
  if b0 < 0x80 then 1 else if b0 < 0xE0 then 2 else if b0 < 0xF0 then 3 else 4

def utf8Val : List Nat → Nat
  | [b0] => b0
  | [b0, b1] => (b0 - 0xC0) * 64 + (b1 - 0x80)
  | [b0, b1, b2] => (b0 - 0xE0) * 4096 + (b1 - 0x80) * 64 + (b2 - 0x80)
  | [b0, b1, b2, b3] => (b0 - 0xF0) * 262144 + (b1 - 0x80) * 4096 + (b2 - 0x80) * 64 + (b3 - 0x80)
  | _ => 0

def utf8Decode : List Nat → List Char
  | [] => []
  | b0 :: rest =>
    Char.ofNat (utf8Val (b0 :: rest.take (utf8Len b0 - 1)))
      :: utf8Decode (rest.drop (utf8Len b0 - 1))
termination_by l => l.length
decreasing_by
  simp only [List.length_drop, List.length_cons]
  omega

theorem utf8Bytes_lt_256 (c : Char) : ∀ b ∈ utf8Bytes c, b < 256 := by
  intro b hb
  have he : c.toNat = c.val.toNat := rfl
  have hv : c.val.toNat < 0xD800 ∨ (0xE000 ≤ c.val.toNat ∧ c.val.toNat < 0x110000) := c.valid
  unfold utf8Bytes at hb
  split at hb
  · simp at hb; omega
  · split at hb
    · simp at hb; rcases hb with h | h <;> omega
    · split at hb
      · simp at hb; rcases hb with h | h | h <;> omega
      · simp at hb; rcases hb with h | h | h | h <;> omega

set_option maxRecDepth 8192 in
theorem hexVal_hexDigit : ∀ x : Nat, x < 16 → hexVal (hexDigit x) = x := by decide

set_option maxRecDepth 8192 in
theorem safe_byte_char (b : Nat) (hb : b < 256) (hs : isUrlencodedSafe b = true) :
    Char.ofNat b ≠ '%' ∧ Char.ofNat b ≠ '+' ∧ (Char.ofNat b).toNat = b := by
  revert hs
  revert hb
  revert b
  decide

theorem percentDecodeBytes_cons_plain (c : Char) (rest : List Char)
    (h1 : c ≠ '%') (h2 : c ≠ '+') :
    percentDecodeBytes (c :: rest) = c.toNat :: percentDecodeBytes rest := by
  rcases rest with _ | ⟨a, _ | ⟨b, rest2⟩⟩
  · rw [percentDecodeBytes.eq_3 _ _ (by intro h l r2 hh; cases hh)]
    rw [if_neg h1, if_neg h2]
  · rw [percentDecodeBytes.eq_3 _ _ (by intro h l r2 hh; cases hh)]
    rw [if_neg h1, if_neg h2]
  · rw [percentDecodeBytes.eq_2]
    rw [if_neg h1, if_neg h2]

theorem percentDecodeBytes_cons_plus (rest : List Char) :
    percentDecodeBytes ('+' :: rest) = 0x20 :: percentDecodeBytes rest := by
  rcases rest with _ | ⟨a, _ | ⟨b, rest2⟩⟩
  · rw [percentDecodeBytes.eq_3 _ _ (by intro h l r2 hh; cases hh)]
    rw [if_neg (by decide), if_pos rfl]
  · rw [percentDecodeBytes.eq_3 _ _ (by intro h l r2 hh; cases hh)]
    rw [if_neg (by decide), if_pos rfl]
  · rw [percentDecodeBytes.eq_2]
    rw [if_neg (by decide), if_pos rfl]

theorem percentDecodeBytes_encodeByte (b : Nat) (hb : b < 256) (rest : List Char) :
    percentDecodeBytes (encodeByte b ++ rest) = b :: percentDecodeBytes rest := by
  by_cases hs : isUrlencodedSafe b = true
  · obtain ⟨h1, h2, h3⟩ := safe_byte_char b hb hs
    unfold encodeByte
    rw [if_pos hs, List.singleton_append]
    rw [percentDecodeBytes_cons_plain _ _ h1 h2, h3]
  · by_cases h20 : b = 0x20
    · subst h20
      have hb1 : encodeByte 0x20 = ['+'] := by decide
      rw [hb1, List.singleton_append, percentDecodeBytes_cons_plus]
    · unfold encodeByte
      rw [if_neg hs, if_neg (by simpa using h20)]
      rw [List.cons_append, List.cons_append, List.cons_append, List.nil_append]
      rw [percentDecodeBytes.eq_2]
      rw [if_pos rfl]
      rw [hexVal_hexDigit (b / 16) (by omega), hexVal_hexDigit (b % 16) (by omega)]
      congr 1
      omega

theorem take_one_cons {α : Type} (a : α) (l : List α) : (a :: l).take 1 = [a] := rfl

theorem take_two_cons {α : Type} (a b : α) (l : List α) : (a :: b :: l).take 2 = [a, b] := rfl

theorem take_three_cons {α : Type} (a b c : α) (l : List α) :
    (a :: b :: c :: l).take 3 = [a, b, c] := rfl

theorem drop_one_cons {α : Type} (a : α) (l : List α) : (a :: l).drop 1 = l := rfl

theorem drop_two_cons {α : Type} (a b : α) (l : List α) : (a :: b :: l).drop 2 = l := rfl

theorem drop_three_cons {α : Type} (a b c : α) (l : List α) :
    (a :: b :: c :: l).drop 3 = l := rfl

theorem utf8Decode_utf8Bytes (c : Char) (rest : List Nat) :
    utf8Decode (utf8Bytes c ++ rest) = c :: utf8Decode rest := by
  have he : c.toNat = c.val.toNat := rfl
  have hv : c.val.toNat < 0xD800 ∨ (0xE000 ≤ c.val.toNat ∧ c.val.toNat < 0x110000) := c.valid
  have hofNat : Char.ofNat c.toNat = c := Char.ofNat_toNat c
  unfold utf8Bytes
  by_cases h1 : c.toNat < 0x80
  · rw [if_pos h1, List.cons_append, List.nil_append]
    rw [utf8Decode]
    have hl : utf8Len c.toNat - 1 = 0 := by unfold utf8Len; rw [if_pos h1]
    rw [hl]
    simp only [List.take_zero, List.drop_zero]
    rw [utf8Val, hofNat]
  · rw [if_neg h1]
    by_cases h2 : c.toNat < 0x800
    · rw [if_pos h2, List.cons_append, List.cons_append, List.nil_append]
      rw [utf8Decode]
      have hl : utf8Len (0xC0 + c.toNat / 64) - 1 = 1 := by
        unfold utf8Len
        rw [if_neg (by omega), if_pos (by omega)]
      rw [hl, take_one_cons, drop_one_cons]
      rw [utf8Val]
      have hval : (0xC0 + c.toNat / 64 - 0xC0) * 64 + (0x80 + c.toNat % 64 - 0x80) = c.toNat := by
        omega
      rw [hval, hofNat]
    · rw [if_neg h2]
      by_cases h3 : c.toNat < 0x10000
      · rw [if_pos h3, List.cons_append, List.cons_append, List.cons_append, List.nil_append]
        rw [utf8Decode]
        have hl : utf8Len (0xE0 + c.toNat / 4096) - 1 = 2 := by
          unfold utf8Len
          rw [if_neg (by omega), if_neg (by omega), if_pos (by omega)]
        rw [hl, take_two_cons, drop_two_cons]
        rw [utf8Val]
        have hval : (0xE0 + c.toNat / 4096 - 0xE0) * 4096 + (0x80 + c.toNat / 64 % 64 - 0x80) * 64
            + (0x80 + c.toNat % 64 - 0x80) = c.toNat := by omega
        rw [hval, hofNat]
      · rw [if_neg h3, List.cons_append, List.cons_append, List.cons_append, List.cons_append,
          List.nil_append]
        rw [utf8Decode]
        have hl : utf8Len (0xF0 + c.toNat / 262144) - 1 = 3 := by
          unfold utf8Len
          rw [if_neg (by omega), if_neg (by omega), if_neg (by omega)]
        rw [hl, take_three_cons, drop_three_cons]
        rw [utf8Val]
        have hval : (0xF0 + c.toNat / 262144 - 0xF0) * 262144
            + (0x80 + c.toNat / 4096 % 64 - 0x80) * 4096
            + (0x80 + c.toNat / 64 % 64 - 0x80) * 64 + (0x80 + c.toNat % 64 - 0x80) = c.toNat := by
          omega
        rw [hval, hofNat]

theorem utf8Decode_flatMap (l : List Char) : utf8Decode (l.flatMap utf8Bytes) = l := by
  induction l with
  | nil => simp only [List.flatMap_nil]; rw [utf8Decode]
  | cons c rest ih => rw [List.flatMap_cons, utf8Decode_utf8Bytes, ih]

theorem percentDecodeBytes_flatMap (bs : List Nat) (h : ∀ b ∈ bs, b < 256) :
    percentDecodeBytes (bs.flatMap encodeByte) = bs := by
  induction bs with
  | nil => rfl
  | cons b rest ih =>
    rw [List.flatMap_cons]
    rw [percentDecodeBytes_encodeByte b (h b (by simp)) _]
    rw [ih (fun x hx => h x (by simp [hx]))]

/-- Form-urlencode one string (the encoding `URLSearchParams` applies to
each name and value). -/
def formUrlEncode (s : String) : String :=
  String.mk ((s.toList.flatMap utf8Bytes).flatMap encodeByte)

/-- Decode a form-urlencoded component: percent-decode to bytes, then
UTF-8-decode the bytes. -/
def formUrlDecode (s : String) : String :=
  String.mk (utf8Decode (percentDecodeBytes s.toList))

/-- The form-urlencoding round trip: decoding an encoded component
yields the original string. -/
theorem formUrlDecode_formUrlEncode (s : String) : formUrlDecode (formUrlEncode s) = s := by
  unfold formUrlDecode formUrlEncode
  have h1 : (String.mk ((s.toList.flatMap utf8Bytes).flatMap encodeByte)).toList
      = (s.toList.flatMap utf8Bytes).flatMap encodeByte := rfl
  rw [h1, percentDecodeBytes_flatMap _ (by
    intro b hb
    rw [List.mem_flatMap] at hb
    obtain ⟨c, _, hbc⟩ := hb
    exact utf8Bytes_lt_256 c b hbc)]
  rw [utf8Decode_flatMap]
  cases s
  rfl

/-- `URLSearchParams.set(k, v)`: replace the value of an existing key,
else append the pair. -/
def searchParamsSet (ps : List (String × String)) (k v : String) : List (String × String) :=
  if ps.any (fun p => p.1 == k) then ps.map (fun p => if p.1 == k then (k, v) else p)
  else ps ++ [(k, v)]

/-- The query loop of `JiraClient.url`: for each entry, skip
`undefined` values, otherwise `searchParams.set(k, String(v))`. -/
def applyQuery (ps : List (String × String)) : List (String × QueryVal) → List (String × String)
  | [] => ps
  | (k, v) :: rest =>
    match stringOfQueryVal v with
    | none => applyQuery ps rest
    | some s => applyQuery (searchParamsSet ps k s) rest

/-- The `application/x-www-form-urlencoded` serializer applied by
`URL.toString()` to the accumulated pairs. -/
def encodeParams (ps : List (String × String)) : String :=
  String.intercalate "&" (ps.map (fun p => formUrlEncode p.1 ++ "=" ++ formUrlEncode p.2))

theorem applyQuery_cons (ps : List (String × String)) (k : String) (v : QueryVal)
    (rest : List (String × QueryVal)) :
    applyQuery ps ((k, v) :: rest)
      = match stringOfQueryVal v with
        | none => applyQuery ps rest
        | some s => applyQuery (searchParamsSet ps k s) rest := rfl

theorem applyQuery_append (q : List (String × QueryVal)) :
    ∀ ps : List (String × String),
    (∀ k, k ∈ q.map Prod.fst → k ∉ ps.map Prod.fst) →
    (q.map Prod.fst).Nodup →
    applyQuery ps q
      = ps ++ q.filterMap (fun p => (stringOfQueryVal p.2).map (fun s => (p.1, s))) := by
  induction q with
  | nil => intro ps _ _; simp [applyQuery]
  | cons kv rest ih =>
    intro ps hdisj hnd
    obtain ⟨k, v⟩ := kv
    have hndrest : (rest.map Prod.fst).Nodup := by
      rw [List.map_cons] at hnd
      exact hnd.of_cons
    rcases hsv : stringOfQueryVal v with _ | s
    · have h1 : applyQuery ps ((k, v) :: rest) = applyQuery ps rest := by
        rw [applyQuery_cons, hsv]
      rw [h1, ih ps (fun x hx => hdisj x (by simp [hx])) hndrest]
      simp [List.filterMap_cons, hsv]
    · have hknotps : k ∉ ps.map Prod.fst := hdisj k (by simp)
      have hany : ps.any (fun p => p.1 == k) = false := by
        by_contra hcon
        rw [Bool.not_eq_false, List.any_eq_true] at hcon
        obtain ⟨p, hp, hpk⟩ := hcon
        exact hknotps (List.mem_map.mpr ⟨p, hp, by simpa using hpk⟩)
      have hset : searchParamsSet ps k s = ps ++ [(k, s)] := by
        unfold searchParamsSet
        rw [hany]
        simp
      have h1 : applyQuery ps ((k, v) :: rest) = applyQuery (searchParamsSet ps k s) rest := by
        rw [applyQuery_cons, hsv]
      have hknotrest : k ∉ rest.map Prod.fst := by
        rw [List.map_cons] at hnd
        exact (List.nodup_cons.mp hnd).1
      rw [h1, hset, ih (ps ++ [(k, s)]) ?_ hndrest]
      · simp [List.filterMap_cons, hsv]
      · intro x hx
        simp only [List.map_append, List.mem_append, List.map_cons, List.map_nil,
          List.mem_singleton, not_or]
        refine ⟨hdisj x (by simp [hx]), ?_⟩
        intro hxk
        rw [hxk] at hx
        exact hknotrest hx

/-- C8: for every query map (a JavaScript object, so keys are unique),
the accumulated search parameters are exactly the entries whose value
is not `undefined`, stringified, in order — keys mapped to `undefined`
are excluded entirely — and form-urlencoding round-trips: decoding an
encoded component yields exactly the stringified original value. -/
theorem query_param_encoding (q : List (String × QueryVal))
    (hnd : (q.map Prod.fst).Nodup) :
    applyQuery [] q = q.filterMap (fun p => (stringOfQueryVal p.2).map (fun s => (p.1, s)))
    ∧ (∀ k : String, (k, QueryVal.undef) ∈ q → k ∉ (applyQuery [] q).map Prod.fst)
    ∧ (∀ s : String, formUrlDecode (formUrlEncode s) = s) := by
  have h1 := applyQuery_append q [] (by simp) hnd
  rw [List.nil_append] at h1
  refine ⟨h1, ?_, fun s => formUrlDecode_formUrlEncode s⟩
  intro k hk hmem
  rw [h1] at hmem
  rw [List.mem_map] at hmem
  obtain ⟨pr, hpr, hprk⟩ := hmem
  rw [List.mem_filterMap] at hpr
  obtain ⟨⟨k2, v2⟩, hmem2, hmap⟩ := hpr
  rcases hsv : stringOfQueryVal v2 with _ | s2
  · rw [hsv] at hmap; cases hmap
  · rw [hsv] at hmap
    have hpr2 : pr = (k2, s2) := by cases hmap; rfl
    have hk2 : k2 = k := by rw [hpr2] at hprk; exact hprk
    subst hk2
    have heq : (k2, QueryVal.undef) = (k2, v2) :=
      List.inj_on_of_nodup_map hnd hk hmem2 rfl
    have hv2 : v2 = QueryVal.undef := by cases heq; rfl
    rw [hv2] at hsv
    cases hsv

/-- C8 witness: the concrete query map from the repository's unit test,
with a value needing escaping; the `skip` key is excluded, the others
appear stringified, and encoding round-trips (`"a b&c"` encodes to
`"a+b%26c"`). -/
theorem query_param_encoding_witness :
    applyQuery [] [("query", .str "a b&c"), ("maxResults", .num 50),
        ("expand", .bool true), ("skip", .undef)]
      = [("query", "a b&c"), ("maxResults", "50"), ("expand", "true")]
    ∧ ("skip" ∉ (applyQuery [] [("query", .str "a b&c"), ("maxResults", .num 50),
        ("expand", .bool true), ("skip", .undef)]).map Prod.fst)
    ∧ formUrlDecode (formUrlEncode "a b&c") = "a b&c"
    ∧ formUrlEncode "a b&c" = "a+b%26c" := by
  have h := query_param_encoding [("query", .str "a b&c"), ("maxResults", .num 50),
    ("expand", .bool true), ("skip", .undef)] (by decide)
  refine ⟨?_, ?_, h.2.2 "a b&c", by rfl⟩
  · rw [h.1]; rfl
  · exact h.2.1 "skip" (by simp)

/-- Host characters the WHATWG parser keeps verbatim (the model rejects
hosts outside this set: userinfo, ports, uppercase, non-ASCII). -/
def isModelHostChar (c : Char) : Bool :=
  c.isLower || c.isDigit || c == '.' || c == '-'

/-- Path characters the WHATWG parser keeps verbatim; `?`, `#`, `\\`
and `%` are excluded, so the modelled fragment has no query/fragment
markers, no backslash separators, and no percent-encoded dot sequences
(`%2e`); literal dot segments are handled by `removeDotSegments`. -/
def isModelPathChar (c : Char) : Bool :=
  c.isAlphanum || c == '/' || c == '-' || c == '_' || c == '~' || c == '!' || c == '$'
    || c == '&' || c == '(' || c == ')' || c == '*' || c == '+' || c == ',' || c == ';'
    || c == '=' || c == ':' || c == '@' || c == '.'

/-- The parsed form of `new URL(s)` on the modelled fragment. -/
structure URLModel where
  scheme : String
  hostChars : List Char
  pathChars : List Char
  params : List (String × String)

/-- Split the part after `scheme://` into host (up to the first `/`)
and path; `none` outside the modelled fragment (empty host, or
characters the real parser would transform). -/
def parseHostPath (scheme : String) (rest : List Char) : Option URLModel :=
  if (rest.takeWhile (fun c => c != '/')).isEmpty then none
  else if !(rest.takeWhile (fun c => c != '/')).all isModelHostChar then none
  else if !(rest.dropWhile (fun c => c != '/')).all isModelPathChar then none
  else some ⟨scheme, rest.takeWhile (fun c => c != '/'), rest.dropWhile (fun c => c != '/'), []⟩

/-- `new URL(s)` for an absolute http(s) address (model). -/
def parseURL (s : String) : Option URLModel :=
  if strStartsWith s "http://" then parseHostPath "http" (s.toList.drop 7)
  else if strStartsWith s "https://" then parseHostPath "https" (s.toList.drop 8)
  else none

/-- The path buffers of a path component: the chunks between `/`
separators after the leading one (`[[]]` for an empty component, as in
the WHATWG path parser, which appends an empty segment at end of
input). -/
def pathBuffers : List Char → List (List Char)
  | [] => [[]]
  | _ :: rest => rest.splitOn '/'

/-- WHATWG dot-segment removal over the path buffers: a `..` buffer
pops the last accepted segment, a `.` buffer is skipped, and a trailing
`.` or `..` leaves a trailing empty segment. -/
def removeDotSegments (acc : List (List Char)) : List (List Char) → List (List Char)
  | [] => acc
  | [b] =>
    if b = ['.', '.'] then acc.dropLast ++ [[]]
    else if b = ['.'] then acc ++ [[]]
    else acc ++ [b]
  | b :: b2 :: rest =>
    if b = ['.', '.'] then removeDotSegments acc.dropLast (b2 :: rest)
    else if b = ['.'] then removeDotSegments acc (b2 :: rest)
    else removeDotSegments (acc ++ [b]) (b2 :: rest)

/-- The serialized path component: each dot-segment-removed segment
prefixed with `/`. -/
def serializePath (pathChars : List Char) : List Char :=
  (removeDotSegments [] (pathBuffers pathChars)).flatMap (fun b => '/' :: b)

/-- `url.toString()`: scheme, host, the dot-segment-normalized path
(`/` for an empty component), and the serialized search parameters
after `?` when any are set. -/
def serializeURL (u : URLModel) : String :=
  String.mk (u.scheme.toList ++ [':', '/', '/'] ++ u.hostChars
    ++ serializePath u.pathChars
    ++ (if u.params.isEmpty then [] else '?' :: (encodeParams u.params).toList))

/-- `JiraClient.url`: `new URL(this.config.baseUrl + path)`, set the
defined query entries on `searchParams`, serialize with `toString()`. -/
def clientUrl (baseUrl path : String) (query : List (String × QueryVal)) : Option String :=
  match parseURL (baseUrl ++ path) with
  | none => none
  | some u => some (serializeURL { u with params := applyQuery u.params query })

/-- Does the request's path component (of `new URL(baseUrl + path)`)
contain a single-dot or double-dot segment? Such segments are collapsed
by the WHATWG parser and can move or create separators. -/
def requestHasDotSegment (baseUrl path : String) : Bool :=
  match parseURL (baseUrl ++ path) with
  | none => false
  | some u => (pathBuffers u.pathChars).any (fun b => b == ['.'] || b == ['.', '.'])

/-- Does the resolved address carry `//` right after its first
`baseLen` characters (the junction between base and path)? -/
def doubleSlashAtJunction (out : String) (baseLen : Nat) : Bool :=
  (out.toList.drop baseLen).take 2 == ['/', '/']

theorem parseHostPath_some (scheme : String) (rest : List Char) (u : URLModel)
    (h : parseHostPath scheme rest = some u) :
    u.scheme = scheme
    ∧ u.hostChars = rest.takeWhile (fun c => c != '/')
    ∧ u.pathChars = rest.dropWhile (fun c => c != '/') := by
  unfold parseHostPath at h
  split at h
  · exact absurd h (by simp)
  · split at h
    · exact absurd h (by simp)
    · split at h
      · exact absurd h (by simp)
      · cases h
        exact ⟨rfl, rfl, rfl⟩

theorem strStartsWith_toList (s p : String) (h : strStartsWith s p = true) :
    s.toList = p.toList ++ s.toList.drop p.toList.length := by
  unfold strStartsWith at h
  rw [List.isPrefixOf_iff_prefix] at h
  obtain ⟨t, ht⟩ := h
  rw [← ht, List.drop_left]

theorem strToList_append (s t : String) : (s ++ t).toList = s.toList ++ t.toList :=
  String.data_append s t

theorem strStartsWith_append (s t p : String) (h : strStartsWith s p = true) :
    strStartsWith (s ++ t) p = true := by
  unfold strStartsWith at h ⊢
  rw [List.isPrefixOf_iff_prefix] at h ⊢
  rw [strToList_append]
  exact h.trans (List.prefix_append _ _)

theorem take2_not_slashes (l : List Char)
    (h : l.head? = some '/' → ∃ t : List Char, l = '/' :: t ∧ t.head? ≠ some '/') :
    (l.take 2 == ['/', '/']) = false := by
  rw [beq_eq_false_iff_ne]
  rcases l with _ | ⟨c, t⟩
  · simp
  · by_cases hc : c = '/'
    · subst hc
      obtain ⟨t', ht', hh⟩ := h rfl
      have ht2 : t = t' := by injection ht'
      rw [← ht2] at hh
      rcases t with _ | ⟨d, t2⟩
      · have h2 : (['/'] : List Char).take 2 = ['/'] := rfl
        rw [h2]
        simp
      · have hd : d ≠ '/' := by simpa using hh
        rw [take_two_cons]
        simp [hd]
    · rcases t with _ | ⟨d, t2⟩
      · have h2 : ([c] : List Char).take 2 = [c] := rfl
        rw [h2]
        simp
      · rw [take_two_cons]
        simp [hc]

theorem junction_case_A (P qs : List Char) (hqs : qs.head? ≠ some '/')
    (hP : (['/', '/'] : List Char).isPrefixOf P = false) :
    ((P ++ qs).take 2 == ['/', '/']) = false := by
  rcases P with _ | ⟨c, t⟩
  · rw [List.nil_append]
    apply take2_not_slashes
    intro hhd
    exact absurd hhd hqs
  · rw [List.cons_append]
    apply take2_not_slashes
    intro hhd
    have hc : c = '/' := by simpa using hhd
    subst hc
    simp only [List.isPrefixOf, Bool.and_eq_false_iff] at hP
    rcases hP with hP | hP
    · simp at hP
    · refine ⟨t ++ qs, rfl, ?_⟩
      rcases t with _ | ⟨d, t2⟩
      · rw [List.nil_append]
        exact hqs
      · have hd : ¬ ('/' = d) := by
          simp only [List.isPrefixOf, Bool.and_eq_false_iff] at hP
          rcases hP with hP | hP
          · simpa using hP
          · simp at hP
        simp only [List.cons_append, List.head?_cons, ne_eq, Option.some.injEq]
        intro hcon
        exact hd hcon.symm

theorem junction_case_B (P qs : List Char) (hqs : qs.head? ≠ some '/')
    (hP : ∀ x ∈ P, x ≠ '/') :
    ((P ++ ('/' :: qs)).take 2 == ['/', '/']) = false := by
  rcases P with _ | ⟨c, t⟩
  · rw [List.nil_append]
    apply take2_not_slashes
    intro _
    exact ⟨qs, rfl, hqs⟩
  · rw [List.cons_append]
    apply take2_not_slashes
    intro hhd
    have hc : c = '/' := by simpa using hhd
    exact absurd hc (hP c (by simp))

theorem removeDotSegments_no_dots (bufs : List (List Char))
    (h : ∀ b ∈ bufs, ¬(b = ['.'] ∨ b = ['.', '.'])) :
    ∀ acc, removeDotSegments acc bufs = acc ++ bufs := by
  induction bufs with
  | nil => intro acc; simp [removeDotSegments]
  | cons b rest ih =>
    intro acc
    have hb := h b (by simp)
    have hb1 : ¬(b = ['.']) := fun hc => hb (Or.inl hc)
    have hb2 : ¬(b = ['.', '.']) := fun hc => hb (Or.inr hc)
    rcases rest with _ | ⟨b2, rest2⟩
    · simp only [removeDotSegments]
      rw [if_neg hb2, if_neg hb1]
    · simp only [removeDotSegments]
      rw [if_neg hb2, if_neg hb1]
      rw [ih (fun x hx => h x (by simp [hx])) (acc ++ [b])]
      simp

theorem flatMap_slash (bufs : List (List Char)) (h : bufs ≠ []) :
    bufs.flatMap (fun b => '/' :: b) = '/' :: List.intercalate ['/'] bufs := by
  induction bufs with
  | nil => cases h rfl
  | cons b rest ih =>
    rcases rest with _ | ⟨b2, rest2⟩
    · simp [List.intercalate, List.intersperse]
    · rw [List.flatMap_cons, ih (by simp)]
      have h2 : List.intercalate ['/'] (b :: b2 :: rest2)
          = b ++ '/' :: List.intercalate ['/'] (b2 :: rest2) := by
        simp [List.intercalate, List.intersperse]
      rw [h2]
      simp

theorem serializePath_no_dots (t : List Char)
    (h : ∀ b ∈ t.splitOn '/', ¬(b = ['.'] ∨ b = ['.', '.'])) :
    serializePath ('/' :: t) = '/' :: t := by
  unfold serializePath
  have hb : pathBuffers ('/' :: t) = t.splitOn '/' := rfl
  rw [hb, removeDotSegments_no_dots _ h [], List.nil_append]
  have hne : t.splitOn '/' ≠ [] := by
    show t.splitOnP (fun c => c == '/') ≠ []
    exact List.splitOnP_ne_nil _ t
  rw [flatMap_slash _ hne, List.intercalate_splitOn]

theorem dropWhile_head_slash (rest : List Char) (c : Char) (t : List Char)
    (h : rest.dropWhile (fun x => x != '/') = c :: t) : c = '/' := by
  have hne : rest.dropWhile (fun x => x != '/') ≠ [] := by rw [h]; simp
  have hnot := List.head_dropWhile_not (fun x => x != '/') rest hne
  simp only [h, List.head_cons] at hnot
  simpa using hnot

theorem clientUrl_junction_aux (base path : String) (ps : List (String × String)) (u : URLModel)
    (scheme pfx : String)
    (hpfx : scheme.toList ++ [':', '/', '/'] = pfx.toList)
    (hbpfx : strStartsWith base pfx = true)
    (hpath : strStartsWith path "//" = false)
    (hnd : ∀ b ∈ pathBuffers u.pathChars, ¬(b = ['.'] ∨ b = ['.', '.']))
    (hpp : parseHostPath scheme ((base ++ path).toList.drop pfx.toList.length) = some u) :
    doubleSlashAtJunction (serializeURL { u with params := ps }) base.length = false := by
  obtain ⟨husch, hhost, hpathc⟩ := parseHostPath_some _ _ _ hpp
  have hbase_split : base.toList = pfx.toList ++ base.toList.drop pfx.toList.length :=
    strStartsWith_toList base pfx hbpfx
  have hs_split : (base ++ path).toList
      = pfx.toList ++ (base ++ path).toList.drop pfx.toList.length :=
    strStartsWith_toList (base ++ path) pfx (strStartsWith_append base path pfx hbpfx)
  have hrest : (base ++ path).toList.drop pfx.toList.length
      = base.toList.drop pfx.toList.length ++ path.toList := by
    have h2 : (base ++ path).toList
        = pfx.toList ++ (base.toList.drop pfx.toList.length ++ path.toList) := by
      rw [strToList_append]
      conv_lhs => rw [hbase_split]
      rw [List.append_assoc]
    exact List.append_cancel_left (hs_split.symm.trans h2)
  have hhp : u.hostChars ++ u.pathChars = (base ++ path).toList.drop pfx.toList.length := by
    rw [hhost, hpathc]
    exact List.takeWhile_append_dropWhile _ _
  have hpbit : serializePath u.pathChars
      = (if u.pathChars.isEmpty then ['/'] else u.pathChars) := by
    by_cases hpe0 : u.pathChars.isEmpty
    · have hnil : u.pathChars = [] := List.isEmpty_iff.mp hpe0
      rw [hnil]
      rfl
    · have hne2 : u.pathChars ≠ [] := by
        intro hcon
        apply hpe0
        rw [hcon]
        rfl
      obtain ⟨c, t, hq⟩ := List.exists_cons_of_ne_nil hne2
      have hq2 := hq
      rw [hpathc] at hq2
      have hc : c = '/' := dropWhile_head_slash _ c t hq2
      subst hc
      rw [hq, if_neg (by simp)]
      apply serializePath_no_dots
      intro b hb
      apply hnd b
      rw [hq]
      exact hb
  have hout : (serializeURL { u with params := ps }).toList
      = pfx.toList ++ (u.hostChars ++ ((if u.pathChars.isEmpty then ['/'] else u.pathChars)
          ++ (if ps.isEmpty then [] else '?' :: (encodeParams ps).toList))) := by
    show u.scheme.toList ++ [':', '/', '/'] ++ u.hostChars
        ++ serializePath u.pathChars
        ++ (if ps.isEmpty then [] else '?' :: (encodeParams ps).toList) = _
    rw [husch, hpfx, hpbit]
    simp [List.append_assoc]
  have hqshead : (if ps.isEmpty then ([] : List Char)
      else '?' :: (encodeParams ps).toList).head? ≠ some '/' := by
    by_cases hps : ps.isEmpty <;> simp [hps]
  unfold doubleSlashAtJunction
  have hlen : base.length = base.toList.length := rfl
  by_cases hpe : u.pathChars.isEmpty
  · -- empty path component: the serializer emits "/": base ++ path has
    -- no slash after the scheme prefix, so the path contributes none
    have hpc : u.pathChars = [] := List.isEmpty_iff.mp hpe
    have hnos : ∀ x ∈ (base ++ path).toList.drop pfx.toList.length, x ≠ '/' := by
      intro x hx
      have := List.dropWhile_eq_nil_iff.mp (by rw [← hpathc, hpc]) x hx
      simpa using this
    have hpath_nos : ∀ x ∈ path.toList, x ≠ '/' := by
      intro x hx
      exact hnos x (by rw [hrest]; exact List.mem_append_right _ hx)
    have hhostval : u.hostChars = (base ++ path).toList.drop pfx.toList.length := by
      rw [← hhp, hpc, List.append_nil]
    rw [hout, hpe, if_pos rfl, hhostval, hrest]
    have hre : pfx.toList ++ (base.toList.drop pfx.toList.length ++ path.toList
        ++ (['/'] ++ (if ps.isEmpty then ([] : List Char) else '?' :: (encodeParams ps).toList)))
        = base.toList ++ (path.toList
          ++ ('/' :: (if ps.isEmpty then ([] : List Char)
              else '?' :: (encodeParams ps).toList))) := by
      rw [hbase_split]
      simp [List.append_assoc]
    rw [hre, hlen, List.drop_left]
    exact junction_case_B path.toList _ hqshead hpath_nos
  · -- non-empty path component: the serializer emits it verbatim
    have hre : pfx.toList ++ (u.hostChars ++ (u.pathChars
        ++ (if ps.isEmpty then ([] : List Char) else '?' :: (encodeParams ps).toList)))
        = base.toList ++ (path.toList
          ++ (if ps.isEmpty then ([] : List Char) else '?' :: (encodeParams ps).toList)) := by
      rw [hbase_split]
      have h1 : u.hostChars ++ (u.pathChars
          ++ (if ps.isEmpty then ([] : List Char) else '?' :: (encodeParams ps).toList))
          = (u.hostChars ++ u.pathChars)
            ++ (if ps.isEmpty then ([] : List Char) else '?' :: (encodeParams ps).toList) := by
        simp [List.append_assoc]
      rw [h1, hhp, hrest]
      simp [List.append_assoc]
    rw [hout, if_neg hpe, hre, hlen, List.drop_left]
    apply junction_case_A path.toList _ hqshead
    unfold strStartsWith at hpath
    exact hpath

/-- C7 (amended): for every base address accepted at construction and
every caller-supplied path, if the path does not begin with a doubled
separator and the resolved request's path component has no single-dot
or double-dot segments (WHATWG dot-segment removal can collapse such
segments into a doubled separator, as in `"/.//x"`), then the resolved
request address has no `//` at the junction between base and path. -/
theorem clientUrl_no_double_slash_at_junction (braw base path : String)
    (q : List (String × QueryVal)) (out : String)
    (hb : normalizeBaseUrl braw = .ok base)
    (hpath : strStartsWith path "//" = false)
    (hnd : requestHasDotSegment base path = false)
    (hout : clientUrl base path q = some out) :
    doubleSlashAtJunction out base.length = false := by
  obtain ⟨hbval, hscheme, hslash⟩ := normalizeBaseUrl_ok braw base hb
  unfold clientUrl at hout
  rcases hp : parseURL (base ++ path) with _ | u
  · rw [hp] at hout; exact absurd hout (by simp)
  · rw [hp] at hout
    have hout2 : out = serializeURL { u with params := applyQuery u.params q } := by
      cases hout; rfl
    subst hout2
    have hndu : ∀ b ∈ pathBuffers u.pathChars, ¬(b = ['.'] ∨ b = ['.', '.']) := by
      unfold requestHasDotSegment at hnd
      rw [hp] at hnd
      have hnd2 : (pathBuffers u.pathChars).any
          (fun b => b == ['.'] || b == ['.', '.']) = false := hnd
      intro b hb
      have := List.any_eq_false.mp hnd2 b hb
      simpa using this
    unfold parseURL at hp
    rw [Bool.or_eq_true] at hscheme
    rcases hscheme with hsch | hsch
    · have hs : strStartsWith (base ++ path) "http://" = true :=
        strStartsWith_append base path "http://" hsch
      rw [if_pos hs] at hp
      exact clientUrl_junction_aux base path _ u "http" "http://" (by rfl) hsch hpath hndu hp
    · have hs : strStartsWith (base ++ path) "https://" = true :=
        strStartsWith_append base path "https://" hsch
      have hnot : strStartsWith (base ++ path) "http://" = false := by
        by_contra hcon
        rw [Bool.not_eq_false] at hcon
        unfold strStartsWith at hcon hs
        rw [List.isPrefixOf_iff_prefix] at hcon hs
        have h3 := List.prefix_of_prefix_length_le hcon hs (by decide)
        exact absurd h3 (by decide)
      rw [if_neg (by simp [hnot]), if_pos hs] at hp
      exact clientUrl_junction_aux base path _ u "https" "https://" (by rfl) hsch hpath hndu hp

/-- C7 counterexample: the path `"//x"` — accepted by the quantification
"every caller-supplied path, regardless of whether it begins with a
separator" — produces a resolved address with a doubled separator at
the junction: `"http://a.com" + "//x"` resolves to `"http://a.com//x"`.
The path `"/.//x"`, which does not begin with a doubled separator,
produces the same address: dot-segment removal collapses its single-dot
segment, leaving a leading empty segment and thus `//` at the
junction. -/
theorem clientUrl_double_slash_cex :
    normalizeBaseUrl "http://a.com" = .ok "http://a.com"
    ∧ clientUrl "http://a.com" "//x" [] = some "http://a.com//x"
    ∧ strStartsWith "/.//x" "//" = false
    ∧ clientUrl "http://a.com" "/.//x" [] = some "http://a.com//x"
    ∧ doubleSlashAtJunction "http://a.com//x" ("http://a.com".length) = true := by
  refine ⟨rfl, rfl, rfl, rfl, rfl⟩

/-- C7 witness: a concrete accepted base and single-separator path
resolve with a clean junction. -/
theorem clientUrl_no_double_slash_witness :
    clientUrl "https://test.atlassian.net" "/rest/api/3/myself" []
      = some "https://test.atlassian.net/rest/api/3/myself"
    ∧ doubleSlashAtJunction "https://test.atlassian.net/rest/api/3/myself"
        ("https://test.atlassian.net".length) = false := by
  constructor
  · rfl
  · exact clientUrl_no_double_slash_at_junction "https://test.atlassian.net"
      "https://test.atlassian.net" "/rest/api/3/myself" []
      "https://test.atlassian.net/rest/api/3/myself" (by rfl) (by rfl) (by rfl) (by rfl)
